import Mathlib

/-!
Verification of the Hashly client-side key-value lookup engine
(`src/app.js`, class `HashlyLookup`).

Modelling conventions:
* JavaScript strings are sequences of UTF-16 code units, modelled as
  `List Nat` (each element is the value of `charCodeAt`).
* 32-bit unsigned integers are `Nat` reduced `% 2^32` where overflow
  matters; `Math.imul` followed by `>>> 0` preserves exactly the low 32
  bits of the product, which is `(a * b) % 2^32` on the unsigned view.
* The chunk cache is a JavaScript `Map`, whose iteration order is
  insertion order; we model it as an association list `List (Nat × List Nat)`
  ordered oldest-first.  The JS cache key is the string `chunk_${id}`;
  since `id ↦ "chunk_" ++ id` is injective we key directly by the id.
* `fetch` is modelled by a function `Nat → Option (List Nat)`: `some text`
  is an ok response with body `text`, `none` is a non-ok response or
  transport error (the code throws in that case).
* Wall-clock durations (`performance.now()` differences) are modelled by
  passing the measured duration as an explicit argument.
-/

namespace Hashly

/-- `fnv1a_32` from `src/app.js`: FNV-1a 32-bit hash over the code units
of the string.  `hval = hval ^ c` then `hval = Math.imul(hval, prime)`,
returned as `hval >>> 0`. -/
def fnv1a_32 (s : List Nat) : Nat :=
  s.foldl (fun hval c => ((hval ^^^ c) * 0x01000193) % 2 ^ 32) 0x811c9dc5

/-- Reference FNV-1a recursion, written from the spec (section 4.1):
start from the seed, and for each byte XOR then multiply mod `2^32`. -/
def fnv1aRef : Nat → List Nat → Nat
  | h, [] => h
  | h, b :: rest => fnv1aRef (((h ^^^ b) * 0x01000193) % 2 ^ 32) rest

/-- One code unit is a hexadecimal digit: `[0-9a-f]` with the `i` flag,
i.e. `0-9`, `a-f` or `A-F`. -/
def isHexCode (c : Nat) : Bool :=
  decide ((48 ≤ c ∧ c ≤ 57) ∨ (97 ≤ c ∧ c ≤ 102) ∨ (65 ≤ c ∧ c ≤ 70))

/-- `validateKey` from `src/app.js`: `/^[0-9a-f]{32}$/i.test(key)`. -/
def validateKey (key : List Nat) : Bool :=
  decide (key.length = 32) && key.all isHexCode

/-- JavaScript `toLowerCase` on one code unit (ASCII range; all code
units this engine validates are ASCII hex characters). -/
def jsToLowerCode (c : Nat) : Nat :=
  if 65 ≤ c ∧ c ≤ 90 then c + 32 else c

/-- The JavaScript `String.prototype.trim` whitespace set (WhiteSpace
and LineTerminator code points). -/
def isJsSpace (c : Nat) : Bool :=
  decide ((9 ≤ c ∧ c ≤ 13) ∨ c = 32 ∨ c = 160 ∨ c = 5760 ∨
    (8192 ≤ c ∧ c ≤ 8202) ∨ c = 8232 ∨ c = 8233 ∨ c = 8239 ∨
    c = 8287 ∨ c = 12288 ∨ c = 65279)

/-- JavaScript `trim`: drop whitespace from both ends. -/
def jsTrim (s : List Nat) : List Nat :=
  ((s.dropWhile isJsSpace).reverse.dropWhile isJsSpace).reverse

/-- `normalizeKey` from `src/app.js`: `key.toLowerCase().trim()`. -/
def normalizeKey (key : List Nat) : List Nat :=
  jsTrim (key.map jsToLowerCode)

/-- `getChunkId` from `src/app.js`: `(hash % total_chunks) + 1`. -/
def getChunkId (totalChunks : Nat) (key : List Nat) : Nat :=
  fnv1a_32 key % totalChunks + 1

/-- Code units of a Lean string literal, for concrete test inputs. -/
def str (s : String) : List Nat :=
  s.toList.map Char.toNat

theorem fnv1a_32_lt (s : List Nat) : fnv1a_32 s < 2 ^ 32 := by
  unfold fnv1a_32
  have h : ∀ (l : List Nat) (h0 : Nat), h0 < 2 ^ 32 →
      l.foldl (fun hval c => ((hval ^^^ c) * 0x01000193) % 2 ^ 32) h0 < 2 ^ 32 := by
    intro l
    induction l with
    | nil => intro h0 hh; simpa using hh
    | cons c rest ih =>
      intro h0 _
      exact ih _ (Nat.mod_lt _ (by norm_num))
  exact h s 0x811c9dc5 (by norm_num)

theorem fnv1a_32_eq_ref (s : List Nat) : fnv1a_32 s = fnv1aRef 0x811c9dc5 s := by
  unfold fnv1a_32
  have h : ∀ (l : List Nat) (h0 : Nat),
      l.foldl (fun hval c => ((hval ^^^ c) * 0x01000193) % 2 ^ 32) h0 = fnv1aRef h0 l := by
    intro l
    induction l with
    | nil => intro h0; rfl
    | cons c rest ih => intro h0; exact ih _
  exact h s 0x811c9dc5

/-- C1: `fnv1a_32` computes the FNV-1a 32-bit reference hash (seed
`0x811c9dc5`, per code unit XOR then multiply by `0x01000193` mod
`2^32`), is deterministic, hashes the empty string to the seed, and
always yields an unsigned 32-bit value. -/
theorem fnv1a_32_correct (s t : List Nat) (h : s = t) :
    fnv1a_32 s = fnv1aRef 0x811c9dc5 s ∧
    fnv1a_32 s = fnv1a_32 t ∧
    fnv1a_32 [] = 0x811c9dc5 ∧
    fnv1a_32 s < 2 ^ 32 := by
  refine ⟨fnv1a_32_eq_ref s, by rw [h], by rfl, fnv1a_32_lt s⟩

theorem fnv1a_32_correct_witness :
    fnv1a_32 (str "a") = fnv1aRef 0x811c9dc5 (str "a") ∧
    fnv1a_32 (str "a") = fnv1a_32 (str "a") ∧
    fnv1a_32 [] = 0x811c9dc5 ∧
    fnv1a_32 (str "a") < 2 ^ 32 :=
  fnv1a_32_correct (str "a") (str "a") rfl

/-- C2: for a positive chunk count `N`, `getChunkId` returns
`fnv1a_32 key % N + 1`, an integer in the range `[1, N]`. -/
theorem getChunkId_range (N : Nat) (key : List Nat) (hN : 0 < N) :
    getChunkId N key = fnv1a_32 key % N + 1 ∧
    1 ≤ getChunkId N key ∧ getChunkId N key ≤ N := by
  refine ⟨rfl, Nat.le_add_left 1 _, ?_⟩
  have h1 := Nat.mod_lt (fnv1a_32 key) hN
  have h2 : getChunkId N key = fnv1a_32 key % N + 1 := rfl
  omega

theorem getChunkId_range_witness :
    getChunkId 5 (str "abc") = fnv1a_32 (str "abc") % 5 + 1 ∧
    1 ≤ getChunkId 5 (str "abc") ∧ getChunkId 5 (str "abc") ≤ 5 :=
  getChunkId_range 5 (str "abc") (by decide)

theorem isJsSpace_not_hex {c : Nat} (h : isJsSpace c = true) : isHexCode c = false := by
  simp only [isJsSpace, decide_eq_true_eq] at h
  simp only [isHexCode, decide_eq_false_iff_not]
  omega

theorem validateKey_iff (key : List Nat) :
    validateKey key = true ↔ key.length = 32 ∧ ∀ c ∈ key,
      (48 ≤ c ∧ c ≤ 57) ∨ (97 ≤ c ∧ c ≤ 102) ∨ (65 ≤ c ∧ c ≤ 70) := by
  simp [validateKey, List.all_eq_true, isHexCode]

/-- C5: `validateKey` accepts exactly the strings of 32 hexadecimal
characters (`0-9`, `a-f`, `A-F`) and nothing else; in particular it
rejects every string whose length is not 32 (so lengths 31 and 33 and
the empty string) and every string containing a whitespace character. -/
theorem validateKey_correct (key keyBadLen keyWs : List Nat) (cWs : Nat)
    (hlen : keyBadLen.length ≠ 32) (hmem : cWs ∈ keyWs)
    (hspace : isJsSpace cWs = true) :
    (validateKey key = true ↔ key.length = 32 ∧ ∀ c ∈ key,
      (48 ≤ c ∧ c ≤ 57) ∨ (97 ≤ c ∧ c ≤ 102) ∨ (65 ≤ c ∧ c ≤ 70)) ∧
    validateKey keyBadLen = false ∧
    validateKey [] = false ∧
    validateKey keyWs = false := by
  refine ⟨validateKey_iff key, ?_, by decide, ?_⟩
  · cases hv : validateKey keyBadLen with
    | false => rfl
    | true => exact absurd ((validateKey_iff keyBadLen).mp hv).1 hlen
  · cases hv : validateKey keyWs with
    | false => rfl
    | true =>
      have hhex := ((validateKey_iff keyWs).mp hv).2 cWs hmem
      have := isJsSpace_not_hex hspace
      simp only [isHexCode, decide_eq_false_iff_not] at this
      exact absurd hhex this

theorem validateKey_correct_witness :
    (validateKey (str "0123456789abcdef0123456789ABCDEF") = true ↔
      (str "0123456789abcdef0123456789ABCDEF").length = 32 ∧
      ∀ c ∈ str "0123456789abcdef0123456789ABCDEF",
        (48 ≤ c ∧ c ≤ 57) ∨ (97 ≤ c ∧ c ≤ 102) ∨ (65 ≤ c ∧ c ≤ 70)) ∧
    validateKey (str "0123456789abcdef0123456789abcde") = false ∧
    validateKey [] = false ∧
    validateKey (str " 0123456789abcdef0123456789abcdef ") = false :=
  validateKey_correct (str "0123456789abcdef0123456789ABCDEF")
    (str "0123456789abcdef0123456789abcde")
    (str " 0123456789abcdef0123456789abcdef ") 32
    (by decide) (by decide) (by decide)

/-! ## Chunk cache (`this.cache`, a JS `Map` iterated in insertion order) -/

/-- `this.maxCacheSize` from the `HashlyLookup` constructor. -/
def maxCacheSize : Nat := 10

/-- `this.cache.get(k)` preceded by `this.cache.has(k)`: first entry
with the given key, if any (a `Map` has at most one). -/
def cacheGet (cache : List (Nat × List Nat)) (k : Nat) : Option (List Nat) :=
  (cache.find? (fun p => decide (p.1 = k))).map Prod.snd

/-- JavaScript `Map.set`: update in place when the key is present,
otherwise append at the newest (insertion-order last) position. -/
def mapSet (cache : List (Nat × List Nat)) (k : Nat) (v : List Nat) :
    List (Nat × List Nat) :=
  if cache.any (fun p => decide (p.1 = k)) then
    cache.map (fun p => if p.1 = k then (k, v) else p)
  else
    cache ++ [(k, v)]

/-- `addToCache` from `src/app.js`: if the cache is at capacity, delete
the first-inserted key (`cache.keys().next().value`), then `Map.set`. -/
def addToCache (cache : List (Nat × List Nat)) (k : Nat) (v : List Nat) :
    List (Nat × List Nat) :=
  mapSet (if maxCacheSize ≤ cache.length then cache.tail else cache) k v

/-- `fetchChunk` from `src/app.js`: consult the cache; on a miss invoke
the fetcher and, on success only, insert the text into the cache.
Returns the text (`none` models the thrown fetch error), the updated
cache, and the number of fetcher invocations. -/
def fetchChunk (fetcher : Nat → Option (List Nat))
    (cache : List (Nat × List Nat)) (chunkId : Nat) :
    Option (List Nat) × List (Nat × List Nat) × Nat :=
  match cacheGet cache chunkId with
  | some text => (some text, cache, 0)
  | none =>
    match fetcher chunkId with
    | none => (none, cache, 1)
    | some text => (some text, addToCache cache chunkId text, 1)

/-- Inserting a sequence of chunk ids into a cache, oldest first. -/
def insertAll (vs : Nat → List Nat) (ids : List Nat)
    (cache : List (Nat × List Nat)) : List (Nat × List Nat) :=
  ids.foldl (fun acc i => addToCache acc i (vs i)) cache

theorem mapSet_fresh (c : List (Nat × List Nat)) (k : Nat) (v : List Nat)
    (hk : ∀ p ∈ c, p.1 ≠ k) : mapSet c k v = c ++ [(k, v)] := by
  unfold mapSet
  rw [if_neg]
  intro hany
  rw [List.any_eq_true] at hany
  obtain ⟨p, hp, hpk⟩ := hany
  exact hk p hp (of_decide_eq_true hpk)

theorem addToCache_fresh_small (c : List (Nat × List Nat)) (k : Nat) (v : List Nat)
    (h : c.length < maxCacheSize) (hk : ∀ p ∈ c, p.1 ≠ k) :
    addToCache c k v = c ++ [(k, v)] := by
  unfold addToCache
  rw [if_neg (Nat.not_le.mpr h)]
  exact mapSet_fresh c k v hk

theorem addToCache_fresh_full (c : List (Nat × List Nat)) (k : Nat) (v : List Nat)
    (h : maxCacheSize ≤ c.length) (hk : ∀ p ∈ c.tail, p.1 ≠ k) :
    addToCache c k v = c.tail ++ [(k, v)] := by
  unfold addToCache
  rw [if_pos h]
  exact mapSet_fresh c.tail k v hk

theorem keys_map_update (c : List (Nat × List Nat)) (k : Nat) (v : List Nat) :
    (c.map (fun p => if p.1 = k then (k, v) else p)).map Prod.fst = c.map Prod.fst := by
  induction c with
  | nil => rfl
  | cons p t ih =>
    by_cases h : p.1 = k <;> simp [h, ih]

theorem addToCache_length_le (c : List (Nat × List Nat)) (k : Nat) (v : List Nat)
    (h : c.length ≤ maxCacheSize) : (addToCache c k v).length ≤ maxCacheSize := by
  unfold addToCache mapSet
  simp only [maxCacheSize] at h ⊢
  by_cases h1 : 10 ≤ c.length
  · rw [if_pos h1]
    by_cases h2 : (c.tail.any fun p => decide (p.1 = k)) = true
    · rw [if_pos h2]
      simp only [List.length_map, List.length_tail]
      omega
    · rw [if_neg h2]
      simp only [List.length_append, List.length_tail, List.length_cons, List.length_nil]
      omega
  · rw [if_neg h1]
    by_cases h2 : (c.any fun p => decide (p.1 = k)) = true
    · rw [if_pos h2]
      simp only [List.length_map]
      omega
    · rw [if_neg h2]
      simp only [List.length_append, List.length_cons, List.length_nil]
      omega

theorem mapSet_keys_nodup (c1 : List (Nat × List Nat)) (k : Nat) (v : List Nat)
    (hnd1 : (c1.map Prod.fst).Nodup) : ((mapSet c1 k v).map Prod.fst).Nodup := by
  unfold mapSet
  by_cases h2 : (c1.any fun p => decide (p.1 = k)) = true
  · rw [if_pos h2, keys_map_update]
    exact hnd1
  · rw [if_neg h2]
    have h2f : c1.any (fun p => decide (p.1 = k)) = false := by
      cases hb : c1.any (fun p => decide (p.1 = k)) with
      | false => rfl
      | true => exact absurd hb h2
    rw [List.any_eq_false] at h2f
    have hk : k ∉ c1.map Prod.fst := by
      intro hmem
      rw [List.mem_map] at hmem
      obtain ⟨p, hp, hpk⟩ := hmem
      exact h2f p hp (decide_eq_true hpk)
    rw [List.map_append]
    rw [List.nodup_append]
    refine ⟨hnd1, List.nodup_singleton _, ?_⟩
    intro a ha hb
    simp only [List.map_cons, List.map_nil, List.mem_singleton] at hb
    rw [hb] at ha
    exact hk ha

theorem addToCache_keys_nodup (c : List (Nat × List Nat)) (k : Nat) (v : List Nat)
    (h : (c.map Prod.fst).Nodup) : ((addToCache c k v).map Prod.fst).Nodup := by
  unfold addToCache
  apply mapSet_keys_nodup
  split
  · rw [List.map_tail]
    exact h.sublist (List.tail_sublist _)
  · exact h

theorem insertAll_small (vs : Nat → List Nat) (ids : List Nat) :
    ∀ c : List (Nat × List Nat),
    (∀ i ∈ ids, ∀ p ∈ c, p.1 ≠ i) → ids.Nodup →
    c.length + ids.length ≤ maxCacheSize →
    insertAll vs ids c = c ++ ids.map (fun i => (i, vs i)) := by
  induction ids with
  | nil => intro c _ _ _; simp [insertAll]
  | cons i rest ih =>
    intro c hdisj hnd hlen
    have hfresh : ∀ p ∈ c, p.1 ≠ i := fun p hp => hdisj i (by simp) p hp
    have hsmall : c.length < maxCacheSize := by
      simp only [List.length_cons, maxCacheSize] at hlen ⊢; omega
    have hstep : insertAll vs (i :: rest) c = insertAll vs rest (c ++ [(i, vs i)]) := by
      unfold insertAll
      rw [List.foldl_cons, addToCache_fresh_small c i (vs i) hsmall hfresh]
    rw [hstep]
    have hnotmem : i ∉ rest := by
      rw [List.nodup_cons] at hnd; exact hnd.1
    have hdisj2 : ∀ j ∈ rest, ∀ p ∈ c ++ [(i, vs i)], p.1 ≠ j := by
      intro j hj p hp
      rw [List.mem_append] at hp
      cases hp with
      | inl hpc => exact hdisj j (by simp [hj]) p hpc
      | inr hpi =>
        simp only [List.mem_singleton] at hpi
        rw [hpi]
        intro hij
        have hij2 : i = j := hij
        rw [hij2] at hnotmem
        exact hnotmem hj
    have hnd2 : rest.Nodup := by
      rw [List.nodup_cons] at hnd; exact hnd.2
    have hlen2 : (c ++ [(i, vs i)]).length + rest.length ≤ maxCacheSize := by
      simp only [List.length_append, List.length_cons, List.length_nil, maxCacheSize]
      simp only [List.length_cons, maxCacheSize] at hlen
      omega
    rw [ih (c ++ [(i, vs i)]) hdisj2 hnd2 hlen2]
    rw [List.append_assoc]
    rfl

theorem keys_map_pair (vs : Nat → List Nat) (L : List Nat) :
    (L.map fun i => (i, vs i)).map Prod.fst = L := by
  induction L with
  | nil => rfl
  | cons a t ih => simp [ih]

theorem insertAll_eleven (vs : Nat → List Nat) (ids : List Nat)
    (hnd : ids.Nodup) (h11 : ids.length = 11) :
    (insertAll vs ids []).map Prod.fst = ids.tail := by
  obtain ⟨x, hx⟩ : ∃ x, ids.drop 10 = [x] := by
    have hlen : (ids.drop 10).length = 1 := by rw [List.length_drop]; omega
    match hd : ids.drop 10 with
    | [] => rw [hd] at hlen; simp at hlen
    | [y] => exact ⟨y, rfl⟩
    | y :: z :: t => rw [hd] at hlen; simp at hlen
  obtain ⟨L, hL⟩ : ∃ L', L' = ids.take 10 := ⟨_, rfl⟩
  have hids_eq : ids = L ++ [x] := by
    rw [hL, ← hx]
    exact (List.take_append_drop 10 ids).symm
  have hlenL : L.length = 10 := by rw [hL, List.length_take]; omega
  have hndLx : (L ++ [x]).Nodup := by rw [← hids_eq]; exact hnd
  rw [List.nodup_append] at hndLx
  obtain ⟨hndL, _, hdisjLx⟩ := hndLx
  have hxL : x ∉ L := fun hmem => hdisjLx hmem (List.mem_singleton.mpr rfl)
  have hsplit : insertAll vs ids [] = addToCache (insertAll vs L []) x (vs x) := by
    rw [hids_eq]
    unfold insertAll
    rw [List.foldl_append, List.foldl_cons, List.foldl_nil]
  have hM : insertAll vs L [] = L.map (fun i => (i, vs i)) := by
    rw [insertAll_small vs L [] (by intro i _ p hp; simp at hp) hndL
      (by rw [List.length_nil, hlenL]; decide)]
    simp
  have hMkeys : (L.map fun i => (i, vs i)).map Prod.fst = L :=
    keys_map_pair vs L
  have hMlen : (L.map fun i => (i, vs i)).length = 10 := by
    rw [List.length_map, hlenL]
  have hfull : addToCache (L.map fun i => (i, vs i)) x (vs x) =
      (L.map fun i => (i, vs i)).tail ++ [(x, vs x)] := by
    apply addToCache_fresh_full _ x (vs x) (by rw [hMlen]; decide)
    intro p hp
    have hpM : p ∈ L.map fun i => (i, vs i) :=
      (List.tail_sublist _).subset hp
    rw [List.mem_map] at hpM
    obtain ⟨i, hi, hpi⟩ := hpM
    rw [← hpi]
    intro hix
    have hix2 : i = x := hix
    rw [hix2] at hi
    exact hxL hi
  rw [hsplit, hM, hfull]
  rw [List.map_append, List.map_tail, hMkeys, hids_eq]
  cases L with
  | nil => rw [List.length_nil] at hlenL; exact absurd hlenL (by decide)
  | cons a t => simp

/-! ## Shard scanner (`scanChunk`) -/

/-- `chunkText.split(String.fromCharCode(10))`: split on every newline;
the empty string splits to one empty piece, and a trailing newline
yields a trailing empty piece, exactly as in JavaScript. -/
def splitOnNl : List Nat → List (List Nat)
  | [] => [[]]
  | c :: rest =>
    if c = 10 then [] :: splitOnNl rest
    else
      match splitOnNl rest with
      | [] => [[c]]
      | l :: ls => (c :: l) :: ls

/-- `line.indexOf(String.fromCharCode(58))`: index of the first colon,
`none` for the JS result `-1`. -/
def firstColonIdx : List Nat → Option Nat
  | [] => none
  | c :: rest => if c = 58 then some 0 else (firstColonIdx rest).map (· + 1)

/-- The loop body of `scanChunk` from `src/app.js`: skip lines that are
empty after trimming (`!line.trim()`), skip lines with no colon
(`colonIndex === -1`), compare the trimmed prefix before the first
colon with the target key, and on a match return the trimmed suffix
after the colon. -/
def scanLines (targetKey : List Nat) : List (List Nat) → Option (List Nat)
  | [] => none
  | line :: rest =>
    if (jsTrim line).isEmpty then scanLines targetKey rest
    else
      match firstColonIdx line with
      | none => scanLines targetKey rest
      | some colonIndex =>
        if jsTrim (line.take colonIndex) = targetKey then
          some (jsTrim (line.drop (colonIndex + 1)))
        else scanLines targetKey rest

/-- `scanChunk` from `src/app.js`. -/
def scanChunk (chunkText targetKey : List Nat) : Option (List Nat) :=
  scanLines targetKey (splitOnNl chunkText)

/-- What one line contributes, written from the spec (section 4.6):
`none` for blank-after-trim lines, `none` for lines without a colon,
otherwise the trimmed value iff the trimmed record key equals the
target exactly. -/
def lineMatch (targetKey line : List Nat) : Option (List Nat) :=
  if (jsTrim line).isEmpty then none
  else
    match firstColonIdx line with
    | none => none
    | some i =>
      if jsTrim (line.take i) = targetKey then some (jsTrim (line.drop (i + 1)))
      else none

theorem scanLines_eq_findSome (t : List Nat) (ls : List (List Nat)) :
    scanLines t ls = ls.findSome? (lineMatch t) := by
  induction ls with
  | nil => rfl
  | cons l rest ih =>
    by_cases h1 : (jsTrim l).isEmpty = true
    · simp [scanLines, lineMatch, h1, ih, List.findSome?_cons]
    · cases h2 : firstColonIdx l with
      | none => simp [scanLines, lineMatch, h1, h2, ih, List.findSome?_cons]
      | some i =>
        by_cases h3 : jsTrim (l.take i) = t
        · simp [scanLines, lineMatch, h1, h2, h3, List.findSome?_cons]
        · simp [scanLines, lineMatch, h1, h2, h3, ih, List.findSome?_cons]

/-- C4: `scanChunk` splits on newline, skips blank-after-trim lines and
lines with no colon, splits each remaining line at its first colon,
compares the trimmed record key for exact (case-sensitive) equality,
and returns the trimmed value of the first matching line; it returns
`none` when no line matches, and a value containing colons is returned
whole. -/
theorem scanChunk_correct (content target content2 target2 : List Nat)
    (hall : ∀ line ∈ splitOnNl content2, lineMatch target2 line = none) :
    scanChunk content target = (splitOnNl content).findSome? (lineMatch target) ∧
    scanChunk content2 target2 = none ∧
    scanChunk (str "key:part1:part2") (str "key") = some (str "part1:part2") ∧
    scanChunk (str "KEY:v") (str "key") = none ∧
    scanChunk (str "k:first") (str "k2") = none ∧
    scanChunk (str "k:first\nk:second") (str "k") = some (str "first") ∧
    scanChunk (str "\nnocolon line\n  k  :  spaced  \nk:late") (str "k") =
      some (str "spaced") := by
  refine ⟨scanLines_eq_findSome target (splitOnNl content), ?_,
    by decide, by decide, by decide, by decide, by decide⟩
  rw [scanChunk, scanLines_eq_findSome, List.findSome?_eq_none_iff]
  exact hall

theorem scanChunk_correct_witness :
    scanChunk (str "a:1\nb:2") (str "b") =
      (splitOnNl (str "a:1\nb:2")).findSome? (lineMatch (str "b")) ∧
    scanChunk (str "a:1\nnope") (str "zz") = none ∧
    scanChunk (str "key:part1:part2") (str "key") = some (str "part1:part2") ∧
    scanChunk (str "KEY:v") (str "key") = none ∧
    scanChunk (str "k:first") (str "k2") = none ∧
    scanChunk (str "k:first\nk:second") (str "k") = some (str "first") ∧
    scanChunk (str "\nnocolon line\n  k  :  spaced  \nk:late") (str "k") =
      some (str "spaced") :=
  scanChunk_correct (str "a:1\nb:2") (str "b") (str "a:1\nnope") (str "zz")
    (by decide)

/-- C3: the chunk cache is a FIFO of capacity 10 with at most one
entry per shard id: `addToCache` preserves the size bound and key
distinctness; inserting into a full cache evicts the least-recently-
inserted entry; inserting 11 distinct shard ids from an empty cache
retains exactly the last 10 (the first-inserted id is evicted); and a
cache-hit read in `fetchChunk` leaves the cache (hence the eviction
order) unchanged and performs no fetch. -/
theorem cache_fifo_bounded (c cF cH : List (Nat × List Nat)) (k kF kH : Nat)
    (v vF textH : List Nat) (vs : Nat → List Nat) (ids : List Nat)
    (f : Nat → Option (List Nat))
    (hlen : c.length ≤ maxCacheSize) (hnd : (c.map Prod.fst).Nodup)
    (hF1 : cF.length = maxCacheSize) (hF2 : ∀ p ∈ cF.tail, p.1 ≠ kF)
    (hids : ids.Nodup) (h11 : ids.length = 11)
    (hH : cacheGet cH kH = some textH) :
    ((addToCache c k v).length ≤ maxCacheSize ∧
      ((addToCache c k v).map Prod.fst).Nodup) ∧
    addToCache cF kF vF = cF.tail ++ [(kF, vF)] ∧
    (insertAll vs ids []).map Prod.fst = ids.tail ∧
    fetchChunk f cH kH = (some textH, cH, 0) := by
  refine ⟨⟨addToCache_length_le c k v hlen, addToCache_keys_nodup c k v hnd⟩,
    addToCache_fresh_full cF kF vF hF1.ge hF2,
    insertAll_eleven vs ids hids h11, ?_⟩
  unfold fetchChunk
  rw [hH]

theorem cache_fifo_bounded_witness :
    ((addToCache [(2, str "x"), (3, []), (4, []), (5, []), (6, []), (7, []),
        (8, []), (9, []), (10, []), (11, [])] 2 (str "y")).length ≤ maxCacheSize ∧
      ((addToCache [(2, str "x"), (3, []), (4, []), (5, []), (6, []), (7, []),
        (8, []), (9, []), (10, []), (11, [])] 2 (str "y")).map Prod.fst).Nodup) ∧
    addToCache [(2, str "x"), (3, []), (4, []), (5, []), (6, []), (7, []),
        (8, []), (9, []), (10, []), (11, [])] 12 (str "y") =
      [(3, []), (4, []), (5, []), (6, []), (7, []), (8, []), (9, []),
        (10, []), (11, [])] ++ [(12, str "y")] ∧
    (insertAll (fun _ => []) [1, 2, 3, 4, 5, 6, 7, 8, 9, 10, 11] []).map Prod.fst =
      [1, 2, 3, 4, 5, 6, 7, 8, 9, 10, 11].tail ∧
    fetchChunk (fun _ => none) [(2, str "x")] 2 = (some (str "x"), [(2, str "x")], 0) :=
  cache_fifo_bounded
    [(2, str "x"), (3, []), (4, []), (5, []), (6, []), (7, []),
      (8, []), (9, []), (10, []), (11, [])]
    [(2, str "x"), (3, []), (4, []), (5, []), (6, []), (7, []),
      (8, []), (9, []), (10, []), (11, [])]
    [(2, str "x")] 2 12 2 (str "y") (str "y") (str "x")
    (fun _ => []) [1, 2, 3, 4, 5, 6, 7, 8, 9, 10, 11] (fun _ => none)
    (by decide) (by decide) (by decide) (by decide) (by decide) (by decide)
    (by decide)

/-! ## Lookup engine (`lookup`) -/

/-- The result object `lookup` resolves with, mirroring the JS shape:
`{success, value?, error?, duration, chunkId?}` (`mphfIndex` is a
constant string and carries no information). -/
structure LookupResult where
  success : Bool
  value : Option (List Nat)
  error : Option String
  duration : Nat
  chunkId : Option Nat
deriving DecidableEq

/-- Message of the error thrown on validation failure. -/
def invalidKeyMsg : String :=
  "Invalid key format. Must be 32 hexadecimal characters."

/-- Message of the error thrown when a chunk fetch fails. -/
def fetchFailMsg (chunkId : Nat) : String :=
  "Failed to fetch chunk " ++ toString chunkId

/-- Message of the error thrown when the scan finds no value. -/
def keyNotFoundMsg : String :=
  "Key not found in dataset"

/-- `lookup` from `src/app.js`: validate, normalize, locate the chunk,
fetch it (cache-checked), scan it, and return a structured result; the
`catch` block turns each thrown error into a `success: false` result.
The triple also carries the cache after the call and the number of
fetcher invocations; `duration` is the measured elapsed time. -/
def lookup (fetcher : Nat → Option (List Nat)) (totalChunks : Nat)
    (cache : List (Nat × List Nat)) (key : List Nat) (duration : Nat) :
    LookupResult × List (Nat × List Nat) × Nat :=
  if validateKey key then
    match fetchChunk fetcher cache (getChunkId totalChunks (normalizeKey key)) with
    | (none, cache1, n) =>
      (LookupResult.mk false none
        (some (fetchFailMsg (getChunkId totalChunks (normalizeKey key))))
        duration none, cache1, n)
    | (some chunkText, cache1, n) =>
      match scanChunk chunkText (normalizeKey key) with
      | none =>
        (LookupResult.mk false none (some keyNotFoundMsg) duration none, cache1, n)
      | some value =>
        (LookupResult.mk true (some value) none duration
          (some (getChunkId totalChunks (normalizeKey key))), cache1, n)
  else
    (LookupResult.mk false none (some invalidKeyMsg) duration none, cache, 0)

theorem fetchChunk_hit (f : Nat → Option (List Nat))
    (c : List (Nat × List Nat)) (id : Nat) (text : List Nat)
    (h : cacheGet c id = some text) : fetchChunk f c id = (some text, c, 0) := by
  unfold fetchChunk
  rw [h]

theorem fetchChunk_miss_ok (f : Nat → Option (List Nat))
    (c : List (Nat × List Nat)) (id : Nat) (text : List Nat)
    (h1 : cacheGet c id = none) (h2 : f id = some text) :
    fetchChunk f c id = (some text, addToCache c id text, 1) := by
  unfold fetchChunk
  rw [h1, h2]

theorem fetchChunk_miss_fail (f : Nat → Option (List Nat))
    (c : List (Nat × List Nat)) (id : Nat)
    (h1 : cacheGet c id = none) (h2 : f id = none) :
    fetchChunk f c id = (none, c, 1) := by
  unfold fetchChunk
  rw [h1, h2]

theorem fetchFailMsg_ne_keyNotFound (id : Nat) :
    fetchFailMsg id ≠ keyNotFoundMsg := by
  intro h
  have hd := congrArg String.data h
  rw [show fetchFailMsg id = "Failed to fetch chunk " ++ toString id from rfl,
    String.data_append] at hd
  have hF : "Failed to fetch chunk ".data = 'F' :: "ailed to fetch chunk ".data := rfl
  have hK : keyNotFoundMsg.data = 'K' :: "ey not found in dataset".data := rfl
  rw [hF, hK, List.cons_append] at hd
  have hFK : ('F' : Char) = 'K' := (List.cons_eq_cons.mp hd).1
  exact absurd hFK (by decide)

theorem fetchFailMsg_ne_invalidKey (id : Nat) :
    fetchFailMsg id ≠ invalidKeyMsg := by
  intro h
  have hd := congrArg String.data h
  rw [show fetchFailMsg id = "Failed to fetch chunk " ++ toString id from rfl,
    String.data_append] at hd
  have hF : "Failed to fetch chunk ".data = 'F' :: "ailed to fetch chunk ".data := rfl
  have hI : invalidKeyMsg.data =
    'I' :: "nvalid key format. Must be 32 hexadecimal characters.".data := rfl
  rw [hF, hI, List.cons_append] at hd
  have hFI : ('F' : Char) = 'I' := (List.cons_eq_cons.mp hd).1
  exact absurd hFI (by decide)

/-- C6: when the key is well-formed but the chunk fetch fails, `lookup`
returns a failure whose error message is the shard-unavailable one —
distinct from both the key-not-found and the invalid-key messages —
performs exactly one fetch attempt, and leaves the cache unchanged. -/
theorem lookup_fetch_failure (f : Nat → Option (List Nat)) (N : Nat)
    (c : List (Nat × List Nat)) (key : List Nat) (d : Nat)
    (hv : validateKey key = true)
    (hmiss : cacheGet c (getChunkId N (normalizeKey key)) = none)
    (hfail : f (getChunkId N (normalizeKey key)) = none) :
    lookup f N c key d =
      (LookupResult.mk false none
        (some (fetchFailMsg (getChunkId N (normalizeKey key)))) d none, c, 1) ∧
    fetchFailMsg (getChunkId N (normalizeKey key)) ≠ keyNotFoundMsg ∧
    fetchFailMsg (getChunkId N (normalizeKey key)) ≠ invalidKeyMsg := by
  refine ⟨?_, fetchFailMsg_ne_keyNotFound _, fetchFailMsg_ne_invalidKey _⟩
  unfold lookup
  rw [if_pos hv, fetchChunk_miss_fail f c (getChunkId N (normalizeKey key)) hmiss hfail]

theorem lookup_fetch_failure_witness :
    lookup (fun _ => none) 1 [] (str "0123456789abcdef0123456789abcdef") 7 =
      (LookupResult.mk false none
        (some (fetchFailMsg
          (getChunkId 1 (normalizeKey (str "0123456789abcdef0123456789abcdef")))))
        7 none, [], 1) ∧
    fetchFailMsg
        (getChunkId 1 (normalizeKey (str "0123456789abcdef0123456789abcdef"))) ≠
      keyNotFoundMsg ∧
    fetchFailMsg
        (getChunkId 1 (normalizeKey (str "0123456789abcdef0123456789abcdef"))) ≠
      invalidKeyMsg :=
  lookup_fetch_failure (fun _ => none) 1 []
    (str "0123456789abcdef0123456789abcdef") 7 (by decide) rfl rfl

/-- C7: every invocation of `lookup` yields a structured result that
carries the elapsed duration and is exactly one of: success with a
value and a chunk id and no error, or failure with an error and no
value; no third shape exists. -/
theorem lookup_structured (f : Nat → Option (List Nat)) (N : Nat)
    (c : List (Nat × List Nat)) (key : List Nat) (d : Nat) :
    (lookup f N c key d).1.duration = d ∧
    (((lookup f N c key d).1.success = true ∧
      (lookup f N c key d).1.error = none ∧
      ((lookup f N c key d).1.value).isSome = true ∧
      ((lookup f N c key d).1.chunkId).isSome = true) ∨
     ((lookup f N c key d).1.success = false ∧
      (lookup f N c key d).1.value = none ∧
      ((lookup f N c key d).1.error).isSome = true)) := by
  unfold lookup
  split
  · split
    · simp
    · split
      · simp
      · simp
  · simp

theorem cacheGet_cons (q : Nat × List Nat) (rest : List (Nat × List Nat)) (k : Nat) :
    cacheGet (q :: rest) k = if q.1 = k then some q.2 else cacheGet rest k := by
  by_cases h : q.1 = k
  · rw [if_pos h]
    simp [cacheGet, h]
  · rw [if_neg h]
    simp [cacheGet, h]

theorem cacheGet_map_update (c : List (Nat × List Nat)) (k : Nat) (v : List Nat)
    (h : c.any (fun p => decide (p.1 = k)) = true) :
    cacheGet (c.map (fun p => if p.1 = k then (k, v) else p)) k = some v := by
  induction c with
  | nil => simp at h
  | cons p t ih =>
    rw [List.any_cons] at h
    by_cases hp : p.1 = k
    · rw [List.map_cons, if_pos hp, cacheGet_cons]
      rw [if_pos rfl]
    · have ht : t.any (fun p => decide (p.1 = k)) = true := by
        rcases Bool.or_eq_true_iff.mp h with h1 | h1
        · exact absurd (of_decide_eq_true h1) hp
        · exact h1
      rw [List.map_cons, if_neg hp, cacheGet_cons, if_neg hp]
      exact ih ht

theorem cacheGet_append_fresh (c : List (Nat × List Nat)) (k : Nat) (v : List Nat)
    (h : c.any (fun p => decide (p.1 = k)) = false) :
    cacheGet (c ++ [(k, v)]) k = some v := by
  induction c with
  | nil =>
    rw [List.nil_append, cacheGet_cons, if_pos rfl]
  | cons p t ih =>
    rw [List.any_cons, Bool.or_eq_false_iff] at h
    have hp : ¬ p.1 = k := of_decide_eq_false h.1
    rw [List.cons_append, cacheGet_cons, if_neg hp]
    exact ih h.2

theorem cacheGet_mapSet_self (c : List (Nat × List Nat)) (k : Nat) (v : List Nat) :
    cacheGet (mapSet c k v) k = some v := by
  unfold mapSet
  by_cases h : (c.any fun p => decide (p.1 = k)) = true
  · rw [if_pos h]
    exact cacheGet_map_update c k v h
  · rw [if_neg h]
    exact cacheGet_append_fresh c k v (Bool.eq_false_iff.mpr h)

theorem cacheGet_addToCache_self (c : List (Nat × List Nat)) (k : Nat) (v : List Nat) :
    cacheGet (addToCache c k v) k = some v := by
  unfold addToCache
  exact cacheGet_mapSet_self _ k v

theorem fetchChunk_some_cached (f : Nat → Option (List Nat))
    (c : List (Nat × List Nat)) (id : Nat) (text : List Nat)
    (c1 : List (Nat × List Nat)) (n : Nat)
    (h : fetchChunk f c id = (some text, c1, n)) : cacheGet c1 id = some text := by
  unfold fetchChunk at h
  cases hget : cacheGet c id with
  | some t0 =>
    rw [hget] at h
    injection h with h1 h23
    injection h23 with h2 h3
    injection h1 with h1'
    rw [← h2, hget, h1']
  | none =>
    rw [hget] at h
    cases hf : f id with
    | none =>
      rw [hf] at h
      injection h with h1 h23
      simp at h1
    | some t0 =>
      rw [hf] at h
      injection h with h1 h23
      injection h23 with h2 h3
      injection h1 with h1'
      rw [← h2, ← h1']
      exact cacheGet_addToCache_self c id t0

/-- C8: if a `lookup` succeeds, repeating it against the resulting
cache succeeds with the identical value and chunk id, hits the cache
(zero fetcher invocations), and leaves the cache unchanged. -/
theorem lookup_idempotent (f : Nat → Option (List Nat)) (N : Nat)
    (c : List (Nat × List Nat)) (key : List Nat) (d1 d2 : Nat)
    (r1 : LookupResult) (c1 : List (Nat × List Nat)) (n1 : Nat)
    (h1 : lookup f N c key d1 = (r1, c1, n1)) (hs : r1.success = true) :
    (lookup f N c1 key d2).1.success = true ∧
    (lookup f N c1 key d2).1.value = r1.value ∧
    (lookup f N c1 key d2).1.chunkId = r1.chunkId ∧
    (lookup f N c1 key d2).2.1 = c1 ∧
    (lookup f N c1 key d2).2.2 = 0 := by
  unfold lookup at h1
  split at h1
  · rename_i hv
    split at h1
    · rename_i cc nn heq
      cases h1
      simp at hs
    · rename_i chunkText cc nn heq
      split at h1
      · rename_i hscan
        cases h1
        simp at hs
      · rename_i v hscan
        injection h1 with hr h23
        injection h23 with hc hn
        have hcached : cacheGet c1 (getChunkId N (normalizeKey key)) = some chunkText := by
          rw [← hc]
          exact fetchChunk_some_cached f c (getChunkId N (normalizeKey key))
            chunkText cc nn heq
        rw [← hr]
        unfold lookup
        rw [if_pos hv, fetchChunk_hit f c1 (getChunkId N (normalizeKey key))
          chunkText hcached]
        simp only [hscan]
        simp
  · rename_i hv
    cases h1
    simp at hs

theorem lookup_idempotent_witness :
    (lookup (fun _ => some (str "0123456789abcdef0123456789abcdef:hello")) 1
        [(1, str "0123456789abcdef0123456789abcdef:hello")]
        (str "0123456789abcdef0123456789abcdef") 9).1.success = true ∧
    (lookup (fun _ => some (str "0123456789abcdef0123456789abcdef:hello")) 1
        [(1, str "0123456789abcdef0123456789abcdef:hello")]
        (str "0123456789abcdef0123456789abcdef") 9).1.value = some (str "hello") ∧
    (lookup (fun _ => some (str "0123456789abcdef0123456789abcdef:hello")) 1
        [(1, str "0123456789abcdef0123456789abcdef:hello")]
        (str "0123456789abcdef0123456789abcdef") 9).1.chunkId = some 1 ∧
    (lookup (fun _ => some (str "0123456789abcdef0123456789abcdef:hello")) 1
        [(1, str "0123456789abcdef0123456789abcdef:hello")]
        (str "0123456789abcdef0123456789abcdef") 9).2.1 =
      [(1, str "0123456789abcdef0123456789abcdef:hello")] ∧
    (lookup (fun _ => some (str "0123456789abcdef0123456789abcdef:hello")) 1
        [(1, str "0123456789abcdef0123456789abcdef:hello")]
        (str "0123456789abcdef0123456789abcdef") 9).2.2 = 0 :=
  lookup_idempotent (fun _ => some (str "0123456789abcdef0123456789abcdef:hello"))
    1 [] (str "0123456789abcdef0123456789abcdef") 3 9
    (LookupResult.mk true (some (str "hello")) none 3 (some 1))
    [(1, str "0123456789abcdef0123456789abcdef:hello")] 1
    (by decide) rfl

theorem jsToLower_idem (c : Nat) :
    jsToLowerCode (jsToLowerCode c) = jsToLowerCode c := by
  unfold jsToLowerCode
  split_ifs <;> omega

theorem map_jsToLower_idem (l : List Nat) :
    (l.map jsToLowerCode).map jsToLowerCode = l.map jsToLowerCode := by
  induction l with
  | nil => rfl
  | cons a t ih => simp [List.map_cons, ih, jsToLower_idem]

theorem normalizeKey_toLower (raw : List Nat) :
    normalizeKey (raw.map jsToLowerCode) = normalizeKey raw := by
  unfold normalizeKey
  rw [map_jsToLower_idem]

theorem validateKey_toLower (raw : List Nat) (h : validateKey raw = true) :
    validateKey (raw.map jsToLowerCode) = true := by
  rw [validateKey_iff] at h ⊢
  obtain ⟨hlen, hall⟩ := h
  refine ⟨by rw [List.length_map]; exact hlen, ?_⟩
  intro c' hc'
  rw [List.mem_map] at hc'
  obtain ⟨a, ha, hac⟩ := hc'
  have hhex := hall a ha
  rw [← hac]
  unfold jsToLowerCode
  split_ifs <;> omega

/-- C9: for any raw key accepted by `validateKey`, looking up the key
and looking up its `toLowerCase` image validate alike, hash the same
normalized key, target the same chunk id, and produce identical
results against the same fetcher and cache. -/
theorem lookup_case_insensitive (f : Nat → Option (List Nat)) (N : Nat)
    (c : List (Nat × List Nat)) (raw : List Nat) (d : Nat)
    (hv : validateKey raw = true) :
    validateKey (raw.map jsToLowerCode) = true ∧
    fnv1a_32 (normalizeKey (raw.map jsToLowerCode)) = fnv1a_32 (normalizeKey raw) ∧
    getChunkId N (normalizeKey (raw.map jsToLowerCode)) =
      getChunkId N (normalizeKey raw) ∧
    lookup f N c (raw.map jsToLowerCode) d = lookup f N c raw d := by
  refine ⟨validateKey_toLower raw hv, by rw [normalizeKey_toLower],
    by rw [normalizeKey_toLower], ?_⟩
  unfold lookup
  rw [if_pos hv, if_pos (validateKey_toLower raw hv), normalizeKey_toLower]

theorem lookup_case_insensitive_witness :
    validateKey ((str "0123456789ABCDEF0123456789ABCDEF").map jsToLowerCode) = true ∧
    fnv1a_32 (normalizeKey ((str "0123456789ABCDEF0123456789ABCDEF").map jsToLowerCode)) =
      fnv1a_32 (normalizeKey (str "0123456789ABCDEF0123456789ABCDEF")) ∧
    getChunkId 5 (normalizeKey ((str "0123456789ABCDEF0123456789ABCDEF").map jsToLowerCode)) =
      getChunkId 5 (normalizeKey (str "0123456789ABCDEF0123456789ABCDEF")) ∧
    lookup (fun _ => none) 5 [] ((str "0123456789ABCDEF0123456789ABCDEF").map jsToLowerCode) 4 =
      lookup (fun _ => none) 5 [] (str "0123456789ABCDEF0123456789ABCDEF") 4 :=
  lookup_case_insensitive (fun _ => none) 5 []
    (str "0123456789ABCDEF0123456789ABCDEF") 4 (by decide)

theorem dropWhile_append_all (p : Nat → Bool) (l1 l2 : List Nat)
    (h : ∀ x ∈ l1, p x = true) : (l1 ++ l2).dropWhile p = l2.dropWhile p := by
  induction l1 with
  | nil => rfl
  | cons a t ih =>
    rw [List.cons_append, List.dropWhile_cons, h a (List.mem_cons_self a t)]
    simp only [if_true]
    exact ih (fun x hx => h x (List.mem_cons_of_mem a hx))

theorem dropWhile_cons_false (p : Nat → Bool) (a : Nat) (l : List Nat)
    (ha : p a = false) : (a :: l).dropWhile p = a :: l := by
  simp [List.dropWhile_cons, ha]

theorem jsTrim_sandwich (w1 k w2 : List Nat)
    (hw1 : ∀ x ∈ w1, isJsSpace x = true) (hw2 : ∀ x ∈ w2, isJsSpace x = true)
    (hk : ∀ x ∈ k, isJsSpace x = false) (hkne : k ≠ []) :
    jsTrim (w1 ++ k ++ w2) = k := by
  unfold jsTrim
  rw [List.append_assoc, dropWhile_append_all _ w1 (k ++ w2) hw1]
  cases k with
  | nil => exact absurd rfl hkne
  | cons k0 kt =>
    rw [List.cons_append, dropWhile_cons_false _ k0 (kt ++ w2)
      (hk k0 (List.mem_cons_self k0 kt))]
    rw [show k0 :: (kt ++ w2) = (k0 :: kt) ++ w2 from rfl, List.reverse_append]
    rw [dropWhile_append_all _ w2.reverse (k0 :: kt).reverse
      (fun x hx => hw2 x (List.mem_reverse.mp hx))]
    obtain ⟨y, ys, hys⟩ : ∃ y ys, (k0 :: kt).reverse = y :: ys := by
      cases hrev : (k0 :: kt).reverse with
      | nil => exact absurd hrev (by simp)
      | cons y ys => exact ⟨y, ys, rfl⟩
    have hy : isJsSpace y = false := by
      apply hk
      have hmem : y ∈ (k0 :: kt).reverse := by
        rw [hys]
        exact List.mem_cons_self y ys
      exact List.mem_reverse.mp hmem
    rw [hys, dropWhile_cons_false _ y ys hy, ← hys, List.reverse_reverse]

theorem jsTrim_nospace (k : List Nat)
    (hk : ∀ x ∈ k, isJsSpace x = false) (hkne : k ≠ []) : jsTrim k = k := by
  have h := jsTrim_sandwich [] k [] (by simp) (by simp) hk hkne
  simpa using h

theorem hex_not_space (c : Nat) (h : isHexCode c = true) : isJsSpace c = false := by
  simp only [isHexCode, decide_eq_true_eq] at h
  simp only [isJsSpace, decide_eq_false_iff_not]
  omega

theorem space_toLower (c : Nat) (h : isJsSpace c = true) : jsToLowerCode c = c := by
  simp only [isJsSpace, decide_eq_true_eq] at h
  unfold jsToLowerCode
  rw [if_neg]
  omega

theorem isHexCode_lower (c : Nat) (h : isHexCode c = true) :
    isHexCode (jsToLowerCode c) = true := by
  simp only [isHexCode, decide_eq_true_eq] at h ⊢
  unfold jsToLowerCode
  split_ifs <;> omega

theorem normalizeKey_strips (w1 key w2 : List Nat) (hv : validateKey key = true)
    (hw1 : ∀ x ∈ w1, isJsSpace x = true) (hw2 : ∀ x ∈ w2, isJsSpace x = true) :
    normalizeKey (w1 ++ key ++ w2) = normalizeKey key := by
  unfold normalizeKey
  rw [List.map_append, List.map_append]
  have hkey_hex : ∀ x ∈ key, isHexCode x = true := by
    rw [validateKey, Bool.and_eq_true, List.all_eq_true] at hv
    exact hv.2
  have hklen : key.length = 32 := ((validateKey_iff key).mp hv).1
  have hw1' : ∀ x ∈ w1.map jsToLowerCode, isJsSpace x = true := by
    intro x hx
    rw [List.mem_map] at hx
    obtain ⟨a, ha, hax⟩ := hx
    rw [← hax, space_toLower a (hw1 a ha)]
    exact hw1 a ha
  have hw2' : ∀ x ∈ w2.map jsToLowerCode, isJsSpace x = true := by
    intro x hx
    rw [List.mem_map] at hx
    obtain ⟨a, ha, hax⟩ := hx
    rw [← hax, space_toLower a (hw2 a ha)]
    exact hw2 a ha
  have hk' : ∀ x ∈ key.map jsToLowerCode, isJsSpace x = false := by
    intro x hx
    rw [List.mem_map] at hx
    obtain ⟨a, ha, hax⟩ := hx
    rw [← hax]
    exact hex_not_space _ (isHexCode_lower a (hkey_hex a ha))
  have hkne : key.map jsToLowerCode ≠ [] := by
    intro hn
    have hl := congrArg List.length hn
    rw [List.length_map, hklen] at hl
    simp at hl
  rw [jsTrim_sandwich _ _ _ hw1' hw2' hk' hkne, jsTrim_nospace _ hk' hkne]

/-- C10: `lookup` validates the raw, untrimmed input, so a valid
32-hex-character key surrounded by any whitespace is rejected with the
invalid-key failure — the cache is untouched and no fetch happens —
even though `normalizeKey` would strip that whitespace. -/
theorem lookup_rejects_untrimmed (f : Nat → Option (List Nat)) (N : Nat)
    (c : List (Nat × List Nat)) (key w1 w2 : List Nat) (d : Nat)
    (hv : validateKey key = true)
    (hw1 : ∀ x ∈ w1, isJsSpace x = true) (hw2 : ∀ x ∈ w2, isJsSpace x = true)
    (hne : w1 ++ w2 ≠ []) :
    validateKey (w1 ++ key ++ w2) = false ∧
    lookup f N c (w1 ++ key ++ w2) d =
      (LookupResult.mk false none (some invalidKeyMsg) d none, c, 0) ∧
    normalizeKey (w1 ++ key ++ w2) = normalizeKey key := by
  have hklen : key.length = 32 := ((validateKey_iff key).mp hv).1
  have hfalse : validateKey (w1 ++ key ++ w2) = false := by
    cases hb : validateKey (w1 ++ key ++ w2) with
    | false => rfl
    | true =>
      have hlen := ((validateKey_iff _).mp hb).1
      rw [List.length_append, List.length_append, hklen] at hlen
      have hw1z : w1.length = 0 := by omega
      have hw2z : w2.length = 0 := by omega
      rw [List.length_eq_zero] at hw1z hw2z
      rw [hw1z, hw2z] at hne
      exact (hne rfl).elim
  refine ⟨hfalse, ?_, normalizeKey_strips w1 key w2 hv hw1 hw2⟩
  have hnott : ¬ validateKey (w1 ++ key ++ w2) = true := by
    rw [hfalse]
    exact Bool.false_ne_true
  unfold lookup
  rw [if_neg hnott]

theorem lookup_rejects_untrimmed_witness :
    validateKey ([32] ++ str "0123456789abcdef0123456789abcdef" ++ [32, 9]) = false ∧
    lookup (fun _ => none) 5 []
        ([32] ++ str "0123456789abcdef0123456789abcdef" ++ [32, 9]) 6 =
      (LookupResult.mk false none (some invalidKeyMsg) 6 none, [], 0) ∧
    normalizeKey ([32] ++ str "0123456789abcdef0123456789abcdef" ++ [32, 9]) =
      normalizeKey (str "0123456789abcdef0123456789abcdef") :=
  lookup_rejects_untrimmed (fun _ => none) 5 []
    (str "0123456789abcdef0123456789abcdef") [32] [32, 9] 6
    (by decide) (by decide) (by decide) (by decide)

end Hashly
